import Mathlib

/-!
Shallow embedding of the intent-classification and tool-dispatch pipeline of
src/langgraph_app.py, together with the parameter binding of the dice handler
declared in src/server.py.  Python strings are Lean `String`s (character lists
for the pattern matching machinery), the transcript is a list of tagged
messages, the tool registry is an association list from tool names to
handlers, and a handler that raises is modelled as a handler returning
`Except.error`.  The regular expressions used by the source are embedded as
dedicated matchers that reproduce the leftmost greedy semantics of the
concrete patterns that appear in the code.
-/

/-- A transcript entry: HumanMessage or AIMessage (langchain message classes
as used by src/langgraph_app.py). -/
inductive Message : Type
  | human (content : String)
  | ai (content : String)
deriving DecidableEq, Repr

/-- A Python value as passed in the keyword arguments of a tool call
(strings, integers or booleans reach the handlers in this program). -/
inductive PyVal : Type
  | str (s : String)
  | int (n : Int)
  | bool (b : Bool)
deriving DecidableEq, Repr

/-- The pipeline state: `MCPState` of src/langgraph_app.py lines 8-12.
The field `current_query` is declared by the source but never written. -/
structure MCPState where
  messages : List Message := []
  current_query : Option String := none
  tool_results : List (String × String) := []
  user_intent : Option String := none
deriving DecidableEq, Repr

/-- Association list lookup, modelling a Python dict read. -/
def lookupA {α : Type} : List (String × α) → String → Option α
  | [], _ => none
  | (k0, v) :: rest, k => if k0 = k then some v else lookupA rest k

/-- Association list update, modelling a Python dict assignment: replaces the
value of an existing key in place, otherwise appends (insertion order). -/
def insertAssoc : List (String × String) → String → String → List (String × String)
  | [], k, v => [(k, v)]
  | (k0, v0) :: rest, k, v =>
      if k0 = k then (k0, v) :: rest else (k0, v0) :: insertAssoc rest k v

/-- The tool registry: the `self.tools` dict of `MCPClient` (lines 26-33).
A handler receives keyword arguments and either returns a text or raises,
modelled as `Except.error`. -/
def Registry : Type := List (String × (List (String × PyVal) → Except String String))

/-- Python `str.lower` restricted to ASCII, which covers every string this
program manipulates. -/
def pyLower (s : String) : String := String.mk (s.data.map Char.toLower)

/-- Python whitespace class `\s` on ASCII text. -/
def pyIsSpace (c : Char) : Bool :=
  c = ' ' || c = '\t' || c = '\n' || c = '\x0b' || c = '\x0c' || c = '\r'

/-- Python word class `\w` on ASCII text. -/
def pyIsWordChar (c : Char) : Bool := c.isAlphanum || c = '_'

/-- Does the character list start with the given pattern list. -/
def startsWithL : List Char → List Char → Bool
  | [], _ => true
  | _ :: _, [] => false
  | p :: ps, c :: cs => p == c && startsWithL ps cs

/-- Substring containment on character lists (Python `pat in hay`). -/
def containsSubL (pat : List Char) : List Char → Bool
  | [] => startsWithL pat []
  | c :: cs => startsWithL pat (c :: cs) || containsSubL pat cs

/-- Python substring test `pat in hay` on strings. -/
def containsSub (hay pat : String) : Bool := containsSubL pat.data hay.data

/-- Does the string start with the given one (used to state claims about the
literal message templates). -/
def strStarts (p s : String) : Bool := startsWithL p.data s.data

/-- Python `str.strip` on a character list (ASCII whitespace). -/
def pyStrip (cs : List Char) : List Char :=
  ((cs.dropWhile pyIsSpace).reverse.dropWhile pyIsSpace).reverse

/-- Strip an exact literal from the head of the input, returning the rest. -/
def cutLit : List Char → List Char → Option (List Char)
  | [], cs => some cs
  | _ :: _, [] => none
  | p :: ps, c :: cs => if p = c then cutLit ps cs else none

/-- The intent classification cascade of `analyze_user_intent`
(src/langgraph_app.py lines 67-81), applied to the lower-cased query. -/
def classifyIntent (query : String) : String :=
  if List.any ["search", "find", "web", "look up"] (fun k => containsSub query k) then
    "web_search"
  else if List.any ["dice", "roll", "random"] (fun k => containsSub query k) then
    "roll_dice"
  else if List.any ["card", "magic", "mtg", "scryfall"] (fun k => containsSub query k) then
    if containsSub query "random" then "get_random_card"
    else if containsSub query "set" then "get_set_info"
    else "search_card_by_name"
  else if List.any ["password", "generate"] (fun k => containsSub query k) then
    "generate_password"
  else
    "web_search"

/-- The node `analyze_user_intent` (lines 56-83): when the transcript is
nonempty and its last entry is a HumanMessage, classify its lower-cased text
and store the intent; otherwise return the state unchanged. -/
def analyze_user_intent (state : MCPState) : MCPState :=
  match state.messages.getLast? with
  | none => state
  | some (Message.ai _) => state
  | some (Message.human content) =>
      { state with user_intent := some (classifyIntent (pyLower content)) }

/-- Matcher for the pattern (\d+d\d+(?:k\d+)?) at the head of the input:
greedy digit runs, a literal d, digits, and an optional k plus digits.
Returns the matched span and the unconsumed rest. -/
def diceM (cs : List Char) : Option (List Char × List Char) :=
  let a := cs.takeWhile Char.isDigit
  let r1 := cs.dropWhile Char.isDigit
  if a = [] then none
  else
    match r1 with
    | 'd' :: r2 =>
      let b := r2.takeWhile Char.isDigit
      let r3 := r2.dropWhile Char.isDigit
      if b = [] then none
      else
        match r3 with
        | 'k' :: r4 =>
          let c := r4.takeWhile Char.isDigit
          let r5 := r4.dropWhile Char.isDigit
          if c = [] then some (a ++ 'd' :: b, r3)
          else some (a ++ 'd' :: b ++ 'k' :: c, r5)
        | _ => some (a ++ 'd' :: b, r3)
    | _ => none

/-- Matcher for (\d+) at the head of the input. -/
def digitM (cs : List Char) : Option (List Char × List Char) :=
  let a := cs.takeWhile Char.isDigit
  if a = [] then none else some (a, cs.dropWhile Char.isDigit)

/-- Matcher for set\s+(\w+) at the head of the input; yields the captured
group. -/
def setM (cs : List Char) : Option (List Char × List Char) :=
  match cutLit "set".data cs with
  | none => none
  | some r1 =>
    if r1.takeWhile pyIsSpace = [] then none
    else
      let r2 := r1.dropWhile pyIsSpace
      let g := r2.takeWhile pyIsWordChar
      if g = [] then none else some (g, r2.dropWhile pyIsWordChar)

/-- Python re.search: try the matcher at each position from the left and
return the first hit (the patterns of this program cannot match the empty
string, so the scan over start positions suffices). -/
def reSearchAux {α : Type} (m : List Char → Option (α × List Char)) : List Char → Option α
  | [] => Option.map Prod.fst (m [])
  | c :: cs =>
    match m (c :: cs) with
    | some (a, _) => some a
    | none => reSearchAux m cs

/-- re.search of (\d+d\d+(?:k\d+)?) over the raw query (line 101). -/
def diceSearch (q : String) : Option String :=
  Option.map String.mk (reSearchAux diceM q.data)

/-- re.search of (\d+) over the raw query (line 159). -/
def digitSearch (q : String) : Option String :=
  Option.map String.mk (reSearchAux digitM q.data)

/-- re.search of set\s+(\w+) over the raw query (line 150). -/
def setSearch (q : String) : Option String :=
  Option.map String.mk (reSearchAux setM q.data)

/-- Python int() on a run of decimal digits. -/
def digitsToInt (cs : List Char) : Int :=
  cs.foldl (fun a c => a * 10 + ((c.toNat : Int) - 48)) 0

/-- Matcher for a question-word pattern literal\s+ at the head of the input
(the entries of prefixes_to_remove, lines 113-125); the replacement is
empty, so a hit yields the unconsumed rest. -/
def litWsM (pat : List Char) (cs : List Char) : Option (List Char) :=
  match cutLit pat cs with
  | none => none
  | some r1 =>
    if r1.takeWhile pyIsSpace = [] then none
    else some (r1.dropWhile pyIsSpace)

/-- re.sub of a pattern that always consumes at least one character, with an
empty replacement: scan left to right, restart after each hit.  The fuel is
the input length, which bounds the number of steps because every hit consumes
at least one character. -/
def subAllAux (m : List Char → Option (List Char)) : Nat → List Char → List Char
  | _, [] => []
  | 0, cs => cs
  | n + 1, c :: cs =>
    match m (c :: cs) with
    | some rest => subAllAux m n rest
    | none => c :: subAllAux m n cs

/-- re.sub with empty replacement over the whole input. -/
def subAll (m : List Char → Option (List Char)) (cs : List Char) : List Char :=
  subAllAux m cs.length cs

/-- The Python `$` anchor without MULTILINE: end of input, or a single
trailing newline.  Yields the unmatched remainder kept by a substitution. -/
def endOk (cs : List Char) : Option (List Char) :=
  if cs = [] then some []
  else if cs = [ '\n' ] then some cs
  else none

/-- Matcher for \s+word$ at the head of the input (suffix patterns 1-4 of
lines 131-137). -/
def tailLitM (word : List Char) (cs : List Char) : Option (List Char) :=
  if cs.takeWhile pyIsSpace = [] then none
  else
    match cutLit word (cs.dropWhile pyIsSpace) with
    | none => none
    | some r2 => endOk r2

/-- Matcher for \s+word\s+.*$ at the head of the input (suffix patterns 5-6);
the dot does not match a newline. -/
def tailClauseM (word : List Char) (cs : List Char) : Option (List Char) :=
  if cs.takeWhile pyIsSpace = [] then none
  else
    match cutLit word (cs.dropWhile pyIsSpace) with
    | none => none
    | some r2 =>
      if r2.takeWhile pyIsSpace = [] then none
      else endOk ((r2.dropWhile pyIsSpace).dropWhile (fun c => ! (c == '\n')))

/-- re.sub for the end-anchored suffix patterns: replace the leftmost hit
with the empty string.  The remainder kept by the anchor is empty or a lone
newline, where none of these patterns can hit again, so a single
substitution is faithful. -/
def subTail (m : List Char → Option (List Char)) : List Char → List Char
  | [] => []
  | c :: cs =>
    match m (c :: cs) with
    | some kept => kept
    | none => c :: subTail m cs

/-- The ordered prefix patterns of lines 113-125, each standing for
literal\s+ with an empty replacement. -/
def prefixes_to_remove : List (List Char) :=
  ["what does the card".data, "what does".data, "find the card".data, "find".data,
   "search for the card".data, "search for".data, "card".data, "magic card".data,
   "mtg card".data, "show me".data, "tell me about".data]

/-- The ordered suffix passes of lines 131-141. -/
def suffixPasses : List (List Char → Option (List Char)) :=
  [tailLitM "do".data, tailLitM "do?".data, tailLitM "work".data, tailLitM "work?".data,
   tailClauseM "do".data, tailClauseM "work".data]

/-- The card-name extraction of the search_card_by_name branch (lines
107-143): lower-case, remove the prefix patterns in order, remove the suffix
patterns in order, strip.  The IGNORECASE flags of the source are inert
because the input is already lower-cased. -/
def extractCardName (query : String) : String :=
  let cs0 := (pyLower query).data
  let cs1 := prefixes_to_remove.foldl (fun acc p => subAll (litWsM p) acc) cs0
  let cs2 := suffixPasses.foldl (fun acc m => subTail m acc) cs1
  String.mk (pyStrip cs2)

/-- The per-intent argument extraction of execute_mcp_tool (lines 96-165):
each branch either builds the tool call actually issued (left) or yields a
literal result text without any registry invocation (right).  Branch order
follows the source. -/
def extractCall (intent query : String) : Sum (String × List (String × PyVal)) String :=
  if intent = "web_search" then
    Sum.inl ("web_search", [("query", PyVal.str query)])
  else if intent = "roll_dice" then
    match diceSearch query with
    | some nota => Sum.inl ("roll_dice", [("notation", PyVal.str nota)])
    | none => Sum.inr "Please specify dice notation (e.g., \x272d20k1\x27)"
  else if intent = "search_card_by_name" then
    Sum.inl ("search_card_by_name", [("card_name", PyVal.str (extractCardName query))])
  else if intent = "get_random_card" then
    Sum.inl ("get_random_card", [])
  else if intent = "get_set_info" then
    match setSearch query with
    | some code => Sum.inl ("get_set_info", [("set_code", PyVal.str code)])
    | none => Sum.inr "Please specify a set code (e.g., \x27set DOM\x27)"
  else if intent = "generate_password" then
    Sum.inl ("generate_password",
      [("length", PyVal.int (match digitSearch query with
          | some ds => digitsToInt ds.data
          | none => 12)),
       ("include_symbols", PyVal.bool (!(containsSub query "symbol") || containsSub query "symbol"))])
  else
    Sum.inr "I\x27m not sure how to help with that. Try asking about web search, dice rolling, Magic cards, or password generation."

/-- MCPClient.call_tool (lines 35-45): look the name up in the registry and
run the handler; a handler that raises is caught here and rendered as the
text Error calling tool name: message; an unmapped name yields the text
Tool name not found.  Every path returns a successful text: the error
channel of the result type is never used. -/
def call_tool (reg : Registry) (tool_name : String) (kwargs : List (String × PyVal)) :
    Except String String :=
  match lookupA reg tool_name with
  | some f =>
    match f kwargs with
    | Except.ok r => Except.ok r
    | Except.error e => Except.ok ("Error calling tool " ++ tool_name ++ ": " ++ e)
  | none => Except.ok ("Tool " ++ tool_name ++ " not found")

/-- The text of the last transcript entry (line 93).  On an empty transcript
the source raises an uncaught IndexError; that state is outside every claim
and is given a junk value here. -/
def lastContent (ms : List Message) : String :=
  match ms.getLast? with
  | some (Message.human c) => c
  | some (Message.ai c) => c
  | none => ""

/-- The node execute_mcp_tool (lines 86-178): no-op when the intent is unset
(None or the empty string); otherwise extract the arguments for the stored
intent from the last message, produce a result text (through the registry or
by short-circuit), record it in tool_results and append the templated
AIMessage.  An exception escaping the try block would produce the Sorry
message of lines 174-176; no expression inside the try can raise once
call_tool has caught the handler, so that branch is dead. -/
def execute_mcp_tool (reg : Registry) (state : MCPState) : MCPState :=
  match state.user_intent with
  | none => state
  | some intent =>
    if intent = "" then state
    else
      let query := lastContent state.messages
      let outcome : Except String String :=
        match extractCall intent query with
        | Sum.inl c => call_tool reg c.1 c.2
        | Sum.inr txt => Except.ok txt
      match outcome with
      | Except.ok result =>
        { state with
          tool_results := insertAssoc state.tool_results intent result
          messages := state.messages ++
            [Message.ai ("I used the " ++ intent ++ " tool to help you:\n\n" ++ result)] }
      | Except.error e =>
        { state with
          messages := state.messages ++
            [Message.ai ("Sorry, I encountered an error: " ++ e)] }

/-- The registry invocation attempted by execute_mcp_tool on a given state,
read off the same guard and branch structure: none when the intent is unset
or the branch short-circuits without calling the registry. -/
def registryCallOf (state : MCPState) : Option (String × List (String × PyVal)) :=
  match state.user_intent with
  | none => none
  | some intent =>
    if intent = "" then none
    else
      match extractCall intent (lastContent state.messages) with
      | Sum.inl c => some c
      | Sum.inr _ => none

/-- The compiled workflow of create_mcp_workflow (lines 189-208): the
analyze_intent node followed by the execute_tool node; the conditional edge
after it is degenerate (every branch ends the turn). -/
def workflowInvoke (reg : Registry) (state : MCPState) : MCPState :=
  execute_mcp_tool reg (analyze_user_intent state)

/-- Parameter binding of the handler roll_dice of src/server.py (lines
20-24): the keyword notation is required and num_rolls has the declared
default 1 when the call site does not pass it. -/
def roll_dice_binding (kwargs : List (String × PyVal)) : Option (String × Int) :=
  match lookupA kwargs "notation" with
  | some (PyVal.str s) =>
    some (s, match lookupA kwargs "num_rolls" with
             | some (PyVal.int k) => k
             | _ => 1)
  | _ => none

/-- Independent description of the first run of decimal digits in a string:
skip to the first digit and take the maximal digit run from there. -/
def firstRunSpec : List Char → Option (List Char)
  | [] => none
  | c :: cs => if c.isDigit then some ((c :: cs).takeWhile Char.isDigit) else firstRunSpec cs

/-- Independent description of a full dice-pattern hit: a nonempty digit
run, a literal d, a nonempty digit run, and optionally a literal k with a
nonempty digit run. -/
def DiceNotationShape (s : List Char) : Prop :=
  ∃ a b : List Char, a ≠ [] ∧ b ≠ [] ∧ (∀ c ∈ a, c.isDigit = true) ∧ (∀ c ∈ b, c.isDigit = true) ∧
    (s = a ++ 'd' :: b ∨
     ∃ c : List Char, c ≠ [] ∧ (∀ x ∈ c, x.isDigit = true) ∧ s = a ++ 'd' :: b ++ 'k' :: c)

theorem getLast?_app_single {α : Type} (l : List α) (a : α) : (l ++ [a]).getLast? = some a := by
  rw [List.getLast?_append_cons]; rfl

/-- Whether the last transcript entry is a user turn. -/
def lastIsHuman (ms : List Message) : Bool :=
  match ms.getLast? with
  | some (Message.human _) => true
  | _ => false

theorem diceM_append (cs m r : List Char) (h : diceM cs = some (m, r)) : m ++ r = cs := by
  simp only [diceM] at h
  split at h
  · exact absurd h (by simp)
  · rename_i hne
    split at h
    · rename_i r2 heq
      split at h
      · exact absurd h (by simp)
      · rename_i hbne
        split at h
        · rename_i r4 heq3
          split at h
          · injection h with h1
            injection h1 with hm hr
            subst hm; subst hr
            calc (cs.takeWhile Char.isDigit ++ 'd' :: r2.takeWhile Char.isDigit) ++
                  r2.dropWhile Char.isDigit
                = cs.takeWhile Char.isDigit ++ 'd' ::
                    (r2.takeWhile Char.isDigit ++ r2.dropWhile Char.isDigit) := by simp
              _ = cs.takeWhile Char.isDigit ++ 'd' :: r2 := by
                    rw [List.takeWhile_append_dropWhile]
              _ = cs.takeWhile Char.isDigit ++ cs.dropWhile Char.isDigit := by rw [heq]
              _ = cs := List.takeWhile_append_dropWhile _ _
          · injection h with h1
            injection h1 with hm hr
            subst hm; subst hr
            calc (cs.takeWhile Char.isDigit ++ 'd' :: r2.takeWhile Char.isDigit ++
                    'k' :: r4.takeWhile Char.isDigit) ++ r4.dropWhile Char.isDigit
                = cs.takeWhile Char.isDigit ++ 'd' :: r2.takeWhile Char.isDigit ++
                    'k' :: (r4.takeWhile Char.isDigit ++ r4.dropWhile Char.isDigit) := by simp
              _ = cs.takeWhile Char.isDigit ++ 'd' :: r2.takeWhile Char.isDigit ++ 'k' :: r4 := by
                    rw [List.takeWhile_append_dropWhile]
              _ = cs.takeWhile Char.isDigit ++ 'd' ::
                    (r2.takeWhile Char.isDigit ++ r2.dropWhile Char.isDigit) := by rw [heq3]; simp
              _ = cs.takeWhile Char.isDigit ++ 'd' :: r2 := by
                    rw [List.takeWhile_append_dropWhile]
              _ = cs.takeWhile Char.isDigit ++ cs.dropWhile Char.isDigit := by rw [heq]
              _ = cs := List.takeWhile_append_dropWhile _ _
        · injection h with h1
          injection h1 with hm hr
          subst hm; subst hr
          calc (cs.takeWhile Char.isDigit ++ 'd' :: r2.takeWhile Char.isDigit) ++
                r2.dropWhile Char.isDigit
              = cs.takeWhile Char.isDigit ++ 'd' ::
                  (r2.takeWhile Char.isDigit ++ r2.dropWhile Char.isDigit) := by simp
            _ = cs.takeWhile Char.isDigit ++ 'd' :: r2 := by rw [List.takeWhile_append_dropWhile]
            _ = cs.takeWhile Char.isDigit ++ cs.dropWhile Char.isDigit := by rw [heq]
            _ = cs := List.takeWhile_append_dropWhile _ _
    · exact absurd h (by simp)

theorem takeWhile_ne_nil_all_digit (l : List Char) :
    ∀ c ∈ l.takeWhile Char.isDigit, c.isDigit = true := by
  intro c hc
  exact List.mem_takeWhile_imp hc

theorem diceM_shape (cs m r : List Char) (h : diceM cs = some (m, r)) : DiceNotationShape m := by
  simp only [diceM] at h
  split at h
  · exact absurd h (by simp)
  · rename_i hne
    split at h
    · rename_i r2 heq
      split at h
      · exact absurd h (by simp)
      · rename_i hbne
        split at h
        · rename_i r4 heq3
          split at h
          · rename_i hcnil
            injection h with h1
            injection h1 with hm hr
            exact ⟨cs.takeWhile Char.isDigit, r2.takeWhile Char.isDigit, hne, hbne,
              takeWhile_ne_nil_all_digit cs, takeWhile_ne_nil_all_digit r2, Or.inl hm.symm⟩
          · rename_i hcne
            injection h with h1
            injection h1 with hm hr
            refine ⟨cs.takeWhile Char.isDigit, r2.takeWhile Char.isDigit, hne, hbne,
              takeWhile_ne_nil_all_digit cs, takeWhile_ne_nil_all_digit r2,
              Or.inr ⟨r4.takeWhile Char.isDigit, hcne, takeWhile_ne_nil_all_digit r4, ?_⟩⟩
            rw [← hm]
        · injection h with h1
          injection h1 with hm hr
          exact ⟨cs.takeWhile Char.isDigit, r2.takeWhile Char.isDigit, hne, hbne,
            takeWhile_ne_nil_all_digit cs, takeWhile_ne_nil_all_digit r2, Or.inl hm.symm⟩
    · exact absurd h (by simp)

theorem reSearch_leftmost {α : Type} (m : List Char → Option (α × List Char)) (l : List Char)
    (a : α) (h : reSearchAux m l = some a) :
    ∃ i : Nat, Option.map Prod.fst (m (l.drop i)) = some a ∧
      ∀ j, j < i → m (l.drop j) = none := by
  induction l with
  | nil =>
    refine ⟨0, by simpa [reSearchAux] using h, ?_⟩
    intro j hj
    exact absurd hj (Nat.not_lt_zero j)
  | cons c cs ih =>
    cases hm : m (c :: cs) with
    | some p =>
      have ha : p.1 = a := by
        rw [reSearchAux, hm] at h
        cases p
        injection h
      refine ⟨0, ?_, ?_⟩
      · simp [hm, ha]
      · intro j hj
        exact absurd hj (Nat.not_lt_zero j)
    | none =>
      rw [reSearchAux, hm] at h
      obtain ⟨i, h1, h2⟩ := ih h
      refine ⟨i + 1, by simpa using h1, ?_⟩
      intro j hj
      cases j with
      | zero => simpa using hm
      | succ j' => simpa using h2 j' (by omega)

theorem reSearch_digitM_eq (l : List Char) : reSearchAux digitM l = firstRunSpec l := by
  induction l with
  | nil => rfl
  | cons c cs ih =>
    by_cases hd : c.isDigit
    · have ht : (c :: cs).takeWhile Char.isDigit = c :: cs.takeWhile Char.isDigit := by
        simp [List.takeWhile_cons, hd]
      simp [reSearchAux, digitM, firstRunSpec, hd, ht]
    · have ht : (c :: cs).takeWhile Char.isDigit = [] := by
        simp [List.takeWhile_cons, hd]
      have hb : c.isDigit = false := by simpa using hd
      simp [reSearchAux, digitM, firstRunSpec, hb, ht, ih]

/-- Claim C4: the classifier is total and returns exactly one of the six
intent names for every utterance; a first-group keyword forces web_search
regardless of later groups (first-match-wins); an utterance containing
search and no dice, card or password keyword is classified web_search; and
when no keyword group matches the classifier falls back to web_search. -/
theorem c4_classifier_total_default :
    (∀ q : String, classifyIntent q ∈
      ["web_search", "roll_dice", "get_random_card", "get_set_info",
       "search_card_by_name", "generate_password"]) ∧
    (∀ q : String,
      List.any ["search", "find", "web", "look up"] (fun k => containsSub q k) = true →
      classifyIntent q = "web_search") ∧
    (∀ q : String, containsSub q "search" = true →
      List.any ["dice", "roll", "random"] (fun k => containsSub q k) = false →
      List.any ["card", "magic", "mtg", "scryfall"] (fun k => containsSub q k) = false →
      List.any ["password", "generate"] (fun k => containsSub q k) = false →
      classifyIntent q = "web_search") ∧
    (∀ q : String,
      List.any ["search", "find", "web", "look up"] (fun k => containsSub q k) = false →
      List.any ["dice", "roll", "random"] (fun k => containsSub q k) = false →
      List.any ["card", "magic", "mtg", "scryfall"] (fun k => containsSub q k) = false →
      List.any ["password", "generate"] (fun k => containsSub q k) = false →
      classifyIntent q = "web_search") := by
  refine ⟨?_, ?_, ?_, ?_⟩
  · intro q
    unfold classifyIntent
    repeat' split
    all_goals simp
  · intro q h
    simp only [classifyIntent, h]
    rfl
  · intro q h h2 h3 h4
    have h1 : List.any ["search", "find", "web", "look up"] (fun k => containsSub q k) = true := by
      simp only [List.any_cons, List.any_nil, h, Bool.true_or]
    simp only [classifyIntent, h1]
    rfl
  · intro q h1 h2 h3 h4
    simp only [classifyIntent, h1, h2, h3, h4]
    rfl

theorem c4_witness :
    classifyIntent "search something" = "web_search" ∧
    classifyIntent "hello there" = "web_search" :=
  ⟨c4_classifier_total_default.2.2.1 "search something" (by decide) (by decide) (by decide)
     (by decide),
   c4_classifier_total_default.2.2.2 "hello there" (by decide) (by decide) (by decide) (by decide)⟩

/-- Claim C2 is refuted: the utterance Get a random Magic card is classified
roll_dice, not get_random_card, because the keyword random belongs to the
dice group, which is checked before the card group. -/
theorem c2_counterexample :
    classifyIntent (pyLower "Get a random Magic card") = "roll_dice" ∧
    classifyIntent (pyLower "Get a random Magic card") ≠ "get_random_card" := by
  exact ⟨by decide, by decide⟩

/-- Claim C2 amended: classifying Get a random Magic card yields roll_dice,
and every utterance containing a card-group keyword and random, with no
web-search keyword, routes to the dice branch (random is a dice keyword and
the dice group is checked before the card group). -/
theorem c2_random_routes_to_dice :
    classifyIntent (pyLower "Get a random Magic card") = "roll_dice" ∧
    (∀ q : String,
      List.any ["search", "find", "web", "look up"] (fun k => containsSub q k) = false →
      List.any ["card", "magic", "mtg", "scryfall"] (fun k => containsSub q k) = true →
      containsSub q "random" = true →
      classifyIntent q = "roll_dice") := by
  refine ⟨by decide, ?_⟩
  intro q h1 h2 h3
  have hd : List.any ["dice", "roll", "random"] (fun k => containsSub q k) = true := by
    simp only [List.any_cons, List.any_nil, h3, Bool.or_true, Bool.true_or, Bool.or_false]
  simp only [classifyIntent, h1, hd]
  rfl

theorem c2_witness : classifyIntent "get a random magic card" = "roll_dice" :=
  c2_random_routes_to_dice.2 "get a random magic card" (by decide) (by decide) (by decide)

/-- Claim C3 is refuted: Find the card Lightning Bolt is classified
web_search (find is a web-search keyword, checked first), not
search_card_by_name. -/
theorem c3_counterexample :
    (analyze_user_intent
        { messages := [Message.human "Find the card Lightning Bolt"] }).user_intent
      = some "web_search" ∧
    ("web_search" : String) ≠ "search_card_by_name" := by
  exact ⟨by decide, by decide⟩

/-- Claim C3 amended: processing Find the card Lightning Bolt classifies it
as web_search and passes the verbatim utterance as the query argument of the
web-search handler; the card-name extraction, applied to this utterance,
would yield lightning bolt. -/
theorem c3_find_card_is_web_search :
    (analyze_user_intent
        { messages := [Message.human "Find the card Lightning Bolt"] }).user_intent
      = some "web_search" ∧
    registryCallOf (analyze_user_intent
        { messages := [Message.human "Find the card Lightning Bolt"] })
      = some ("web_search", [("query", PyVal.str "Find the card Lightning Bolt")]) ∧
    extractCardName "Find the card Lightning Bolt" = "lightning bolt" := by
  refine ⟨by decide, by decide, by decide⟩

/-- Claim C8 is refuted at a concrete input: invoking the registry with the
unmapped name search_cards returns a successful text, indistinguishable in
channel from a tool result, rather than failing with an error. -/
theorem c8_counterexample :
    call_tool [("web_search", fun _ => Except.ok "ok")] "search_cards" []
      = Except.ok "Tool search_cards not found" := by
  rfl

/-- Claim C8 amended: invoking the registry with an unmapped name returns
the successful text Tool name not found, in the same channel as any
successful result; call_tool never produces an error outcome at all (handler
failures are also converted to successful text). -/
theorem c8_unmapped_returns_success_text :
    (∀ (reg : Registry) (nm : String) (kwargs : List (String × PyVal)),
      lookupA reg nm = none →
      call_tool reg nm kwargs = Except.ok ("Tool " ++ nm ++ " not found")) ∧
    (∀ (reg : Registry) (nm : String) (kwargs : List (String × PyVal)),
      ∃ t : String, call_tool reg nm kwargs = Except.ok t) := by
  constructor
  · intro reg nm kwargs h
    simp only [call_tool, h]
  · intro reg nm kwargs
    cases hl : lookupA reg nm with
    | none => exact ⟨"Tool " ++ nm ++ " not found", by simp [call_tool, hl]⟩
    | some f =>
      cases hf : f kwargs with
      | ok r => exact ⟨r, by simp [call_tool, hl, hf]⟩
      | error e =>
        exact ⟨"Error calling tool " ++ nm ++ ": " ++ e, by simp [call_tool, hl, hf]⟩

theorem c8_witness :
    call_tool [("web_search", fun _ => Except.ok "ok")] "get_card_by_id" []
      = Except.ok ("Tool " ++ "get_card_by_id" ++ " not found") :=
  c8_unmapped_returns_success_text.1 [("web_search", fun _ => Except.ok "ok")]
    "get_card_by_id" [] rfl

/-- Claim C10: when the intent is unset (None, or the falsy empty string) at
the tool-execution step, the step is the identity on the state: no registry
call is attempted, the transcript is unchanged and the tool-result mapping
is unchanged; classification leaves the intent unset when the transcript is
empty or its last entry is not a user turn. -/
theorem c10_no_intent_identity :
    (∀ (reg : Registry) (s : MCPState),
      s.user_intent = none ∨ s.user_intent = some "" →
      execute_mcp_tool reg s = s ∧ registryCallOf s = none) ∧
    (∀ s : MCPState,
      s.user_intent = none →
      s.messages = [] ∨ lastIsHuman s.messages = false →
      analyze_user_intent s = s ∧ (analyze_user_intent s).user_intent = none) := by
  constructor
  · intro reg s h
    rcases h with h | h
    · constructor
      · simp only [execute_mcp_tool, h]
      · simp only [registryCallOf, h]
    · constructor
      · simp [execute_mcp_tool, h]
      · simp [registryCallOf, h]
  · intro s h0 h
    have hid : analyze_user_intent s = s := by
      rcases h with h | h
      · have hl : s.messages.getLast? = none := by rw [h]; rfl
        simp only [analyze_user_intent, hl]
      · unfold lastIsHuman at h
        cases hl : s.messages.getLast? with
        | none => simp only [analyze_user_intent, hl]
        | some m =>
          cases m with
          | human c => rw [hl] at h; simp at h
          | ai c => simp only [analyze_user_intent, hl]
    exact ⟨hid, by rw [hid]; exact h0⟩

theorem c10_witness :
    (execute_mcp_tool [] {} = {} ∧ registryCallOf {} = none) ∧
    (analyze_user_intent {} = {} ∧ (analyze_user_intent {}).user_intent = none) :=
  ⟨c10_no_intent_identity.1 [] {} (Or.inl rfl),
   c10_no_intent_identity.2 {} rfl (Or.inl rfl)⟩

/-- Claim C9: a registry invocation is only ever attempted when the stored
intent is set and non-falsy; and appending a user turn and running
classification overwrites whatever intent was previously stored with the
classification of the new utterance, for every prior state. -/
theorem c9_intent_invariant :
    (∀ s : MCPState, registryCallOf s ≠ none →
      ∃ i : String, s.user_intent = some i ∧ i ≠ "") ∧
    (∀ (s : MCPState) (u : String),
      (analyze_user_intent
          { s with messages := s.messages ++ [Message.human u] }).user_intent
        = some (classifyIntent (pyLower u))) := by
  constructor
  · intro s h
    cases hu : s.user_intent with
    | none => simp [registryCallOf, hu] at h
    | some i =>
      by_cases hi : i = ""
      · subst hi
        simp [registryCallOf, hu] at h
      · exact ⟨i, rfl, hi⟩
  · intro s u
    have hl : (({ s with messages := s.messages ++ [Message.human u] } : MCPState).messages).getLast?
        = some (Message.human u) := getLast?_app_single _ _
    simp only [analyze_user_intent, hl]

theorem c9_witness :
    (∃ i : String,
      ({ messages := [Message.human "search it"],
         user_intent := some "web_search" } : MCPState).user_intent = some i ∧ i ≠ "") ∧
    (analyze_user_intent { messages := [Message.human "search it"] }).user_intent
      = some "web_search" :=
  ⟨c9_intent_invariant.1
      { messages := [Message.human "search it"], user_intent := some "web_search" } (by decide),
   c9_intent_invariant.2 {} "search it"⟩

/-- Claim C6 is refuted at the utterance roll some dice: no registry call
occurs, but the resulting AssistantTurn content is not the bare instruction
text; the instruction is wrapped in the I used the roll_dice tool template. -/
theorem c6_counterexample :
    lastContent (workflowInvoke [] { messages := [Message.human "roll some dice"] }).messages
      ≠ "Please specify dice notation (e.g., \x272d20k1\x27)" ∧
    lastContent (workflowInvoke [] { messages := [Message.human "roll some dice"] }).messages
      = "I used the roll_dice tool to help you:\n\nPlease specify dice notation (e.g., \x272d20k1\x27)" ∧
    registryCallOf (analyze_user_intent { messages := [Message.human "roll some dice"] }) = none := by
  refine ⟨by decide, by decide, by decide⟩

/-- Claim C6 amended: for every roll_dice turn whose query has no
dice-notation match, no registry handler is invoked; the turn appends one
AssistantTurn whose content is the template I used the roll_dice tool to
help you followed by the literal instruction text, and the instruction is
also recorded in the tool-result mapping. -/
theorem c6_dice_short_circuit :
    ∀ (reg : Registry) (s : MCPState),
      s.user_intent = some "roll_dice" →
      diceSearch (lastContent s.messages) = none →
      registryCallOf s = none ∧
      execute_mcp_tool reg s =
        { s with
          tool_results := insertAssoc s.tool_results "roll_dice"
            "Please specify dice notation (e.g., \x272d20k1\x27)",
          messages := s.messages ++
            [Message.ai "I used the roll_dice tool to help you:\n\nPlease specify dice notation (e.g., \x272d20k1\x27)"] } := by
  intro reg s h1 h2
  have he : extractCall "roll_dice" (lastContent s.messages)
      = Sum.inr "Please specify dice notation (e.g., \x272d20k1\x27)" := by
    simp only [extractCall, h2]
    rfl
  constructor
  · simp only [registryCallOf, h1, he]
    rfl
  · simp only [execute_mcp_tool, h1, he]
    rfl

theorem c6_witness :
    registryCallOf
        { messages := [Message.human "roll some dice"], user_intent := some "roll_dice" } = none ∧
    execute_mcp_tool []
        { messages := [Message.human "roll some dice"], user_intent := some "roll_dice" } =
      { messages := [Message.human "roll some dice",
          Message.ai "I used the roll_dice tool to help you:\n\nPlease specify dice notation (e.g., \x272d20k1\x27)"],
        tool_results := [("roll_dice", "Please specify dice notation (e.g., \x272d20k1\x27)")],
        user_intent := some "roll_dice" } := by
  have h := c6_dice_short_circuit []
    { messages := [Message.human "roll some dice"], user_intent := some "roll_dice" }
    rfl (by decide)
  exact ⟨h.1, h.2.trans (by decide)⟩

/-- Claim C7: for every utterance classified generate_password, the
extracted length is the integer value of the first run of digits in the
utterance, or 12 when it has none, and include_symbols is true for every
utterance (the symbol condition of the source is a tautology). -/
theorem c7_password_extraction :
    ∀ u : String,
      classifyIntent (pyLower u) = "generate_password" →
      extractCall "generate_password" u = Sum.inl ("generate_password",
        [("length", PyVal.int (match firstRunSpec u.data with
            | some ds => digitsToInt ds
            | none => 12)),
         ("include_symbols", PyVal.bool true)]) := by
  intro u hc
  have hsym : (!(containsSub u "symbol") || containsSub u "symbol") = true :=
    Bool.not_or_self _
  have hds : digitSearch u = Option.map String.mk (firstRunSpec u.data) := by
    unfold digitSearch
    rw [reSearch_digitM_eq]
  cases hf : firstRunSpec u.data with
  | none =>
    rw [hf] at hds
    simp only [extractCall, hds, hsym]
    rfl
  | some ds =>
    rw [hf] at hds
    simp only [extractCall, hds, hsym]
    rfl

theorem c7_witness :
    extractCall "generate_password" "Generate a password with 16 characters"
      = Sum.inl ("generate_password",
          [("length", PyVal.int 16), ("include_symbols", PyVal.bool true)]) :=
  c7_password_extraction "Generate a password with 16 characters" (by decide)

/-- A registry whose web_search handler always fails. -/
def c1Reg : Registry := [("web_search", fun _ => Except.error "boom")]

/-- A state about to execute a web_search turn. -/
def c1State : MCPState :=
  { messages := [Message.human "search cats"], user_intent := some "web_search" }

/-- Claim C1 is refuted at a concrete input: when the web_search handler
fails, the appended AssistantTurn does not start with the Sorry prefix; the
handler failure is caught inside call_tool and rendered as the successful
text Error calling tool web_search: boom inside the usual success template
(the transcript still grows by exactly one entry). -/
theorem c1_counterexample :
    strStarts "Sorry, I encountered an error: "
        (lastContent (workflowInvoke c1Reg { messages := [Message.human "search cats"] }).messages)
      = false ∧
    lastContent (workflowInvoke c1Reg { messages := [Message.human "search cats"] }).messages
      = "I used the web_search tool to help you:\n\nError calling tool web_search: boom" ∧
    (workflowInvoke c1Reg { messages := [Message.human "search cats"] }).messages.length = 2 := by
  refine ⟨by decide, by decide, by decide⟩

/-- Claim C1 amended: for every turn whose extracted call reaches a
registered handler that fails with an error, the pipeline appends exactly
one AssistantTurn, whose content is the success template I used the intent
tool to help you followed by Error calling tool name: message (the failure
is absorbed by call_tool as a successful text); the transcript grows by
exactly one entry and all prior entries are unchanged. -/
theorem c1_handler_error_contained :
    ∀ (reg : Registry) (s : MCPState) (intent nm : String)
      (kwargs : List (String × PyVal))
      (f : List (String × PyVal) → Except String String) (e : String),
      s.user_intent = some intent →
      intent ≠ "" →
      extractCall intent (lastContent s.messages) = Sum.inl (nm, kwargs) →
      lookupA reg nm = some f →
      f kwargs = Except.error e →
      execute_mcp_tool reg s =
        { s with
          tool_results := insertAssoc s.tool_results intent
            ("Error calling tool " ++ nm ++ ": " ++ e),
          messages := s.messages ++
            [Message.ai ("I used the " ++ intent ++ " tool to help you:\n\n" ++
              ("Error calling tool " ++ nm ++ ": " ++ e))] } ∧
      (execute_mcp_tool reg s).messages.length = s.messages.length + 1 ∧
      (execute_mcp_tool reg s).messages.take s.messages.length = s.messages := by
  intro reg s intent nm kwargs f e h1 h2 h3 h4 h5
  have hmain : execute_mcp_tool reg s =
      { s with
        tool_results := insertAssoc s.tool_results intent
          ("Error calling tool " ++ nm ++ ": " ++ e),
        messages := s.messages ++
          [Message.ai ("I used the " ++ intent ++ " tool to help you:\n\n" ++
            ("Error calling tool " ++ nm ++ ": " ++ e))] } := by
    simp only [execute_mcp_tool, h1, if_neg h2, h3, call_tool, h4, h5]
  refine ⟨hmain, ?_, ?_⟩
  · rw [hmain]
    simp
  · rw [hmain]
    exact List.take_left s.messages _

theorem c1_witness :
    execute_mcp_tool c1Reg c1State =
      { c1State with
        tool_results := insertAssoc c1State.tool_results "web_search"
          ("Error calling tool " ++ "web_search" ++ ": " ++ "boom"),
        messages := c1State.messages ++
          [Message.ai ("I used the " ++ "web_search" ++ " tool to help you:\n\n" ++
            ("Error calling tool " ++ "web_search" ++ ": " ++ "boom"))] } ∧
    (execute_mcp_tool c1Reg c1State).messages.length = c1State.messages.length + 1 ∧
    (execute_mcp_tool c1Reg c1State).messages.take c1State.messages.length = c1State.messages :=
  c1_handler_error_contained c1Reg c1State "web_search" "web_search"
    [("query", PyVal.str "search cats")] (fun _ => Except.error "boom") "boom"
    rfl (by decide) (by decide) rfl rfl

/-- Claim C5: for every utterance classified roll_dice on which the dice
search finds a match, the extracted call passes exactly the found substring
as the notation keyword, the dice handler binds num_rolls to its default 1,
the found substring has the dice-pattern shape, occurs inside the
utterance, and is the match at the first position admitting one (no earlier
position matches). -/
theorem c5_dice_extraction :
    ∀ (u n : String),
      classifyIntent (pyLower u) = "roll_dice" →
      diceSearch u = some n →
      extractCall "roll_dice" u = Sum.inl ("roll_dice", [("notation", PyVal.str n)]) ∧
      roll_dice_binding [("notation", PyVal.str n)] = some (n, 1) ∧
      DiceNotationShape n.data ∧
      List.IsInfix n.data u.data ∧
      (∃ i : Nat, Option.map Prod.fst (diceM (u.data.drop i)) = some n.data ∧
        ∀ j, j < i → diceM (u.data.drop j) = none) := by
  intro u n hc hs
  obtain ⟨cs, hcs, hmk⟩ : ∃ cs, reSearchAux diceM u.data = some cs ∧ String.mk cs = n := by
    unfold diceSearch at hs
    cases hr : reSearchAux diceM u.data with
    | none => rw [hr] at hs; simp at hs
    | some cs =>
      rw [hr] at hs
      exact ⟨cs, rfl, by injection hs⟩
  have hnd : n.data = cs := by rw [← hmk]
  obtain ⟨i, h1, h2⟩ := reSearch_leftmost diceM u.data cs hcs
  obtain ⟨mr, hmr⟩ : ∃ mr, diceM (u.data.drop i) = some mr := by
    cases hm : diceM (u.data.drop i) with
    | none => rw [hm] at h1; simp at h1
    | some mr => exact ⟨mr, rfl⟩
  have hfst : mr.1 = cs := by
    rw [hmr] at h1
    cases mr
    injection h1
  refine ⟨?_, ?_, ?_, ?_, ?_⟩
  · simp only [extractCall, hs]
    rfl
  · rfl
  · rw [hnd, ← hfst]
    exact diceM_shape (u.data.drop i) mr.1 mr.2 (by rw [hmr])
  · have happ : mr.1 ++ mr.2 = u.data.drop i :=
      diceM_append (u.data.drop i) mr.1 mr.2 (by rw [hmr])
    refine ⟨u.data.take i, mr.2, ?_⟩
    rw [hnd, ← hfst, List.append_assoc, happ, List.take_append_drop]
  · refine ⟨i, ?_, h2⟩
    rw [hnd]
    exact h1

theorem c5_witness :
    extractCall "roll_dice" "Roll 2d20k1"
      = Sum.inl ("roll_dice", [("notation", PyVal.str "2d20k1")]) ∧
    roll_dice_binding [("notation", PyVal.str "2d20k1")] = some ("2d20k1", 1) ∧
    DiceNotationShape "2d20k1".data ∧
    List.IsInfix "2d20k1".data "Roll 2d20k1".data ∧
    (∃ i : Nat, Option.map Prod.fst (diceM ("Roll 2d20k1".data.drop i)) = some "2d20k1".data ∧
      ∀ j, j < i → diceM ("Roll 2d20k1".data.drop j) = none) :=
  c5_dice_extraction "Roll 2d20k1" "2d20k1" (by decide) (by decide)
